import Mathlib

/-!
Verification development for the pydio dependency-injection library.

The definitions below are a shallow embedding of the Python sources:
  * `src/pydio/_factories.py`   (bound factory adapters; the module actually
    imported by `src/pydio/_unbound_factories.py`)
  * `src/pydio/_unbound_factories.py`
  * `src/pydio/provider.py`
  * `src/pydio/injector.py`
  * `src/pydio/variant.py`

Modelling conventions:
  * Hashable Python values (keys, scopes, environments, instances) are the
    inductive `PyVal`.  Python `None` is `PyVal.none`; the module sentinel
    `_UNDEFINED` from `_factories.py` is `PyVal.undef`; the `NULL` constant
    from `base.py` is `PyVal.null` (distinct from every other value, as the
    `Constant` class guarantees by identity).
  * Object identity is modelled by allocating fresh `PyVal.obj` identifiers
    from a counter threaded through every operation (`Eff.nextObj`), and the
    user construction functions are modelled as the canonical shapes used by
    the library and its test-suite: a plain function returns a fresh object;
    a (single-yield) generator runs setup, yields a fresh object, and runs
    teardown when resumed.  Setup and teardown executions are recorded in
    `Eff.log`.
  * Awaitable operations (coroutine / async-generator factories) are modelled
    by the effect of creating-and-then-awaiting them: `BF.getInstance` and
    `BF.close` describe the state after the returned coroutine has been
    awaited; the injector-level close keeps the two phases separate
    (`closeNodeF` is the synchronous part of `Injector._do_close`,
    `awaitNodeF` is the body of its `do_async_close` coroutine).
  * The code is single-threaded here, so the lock in `injector.py` and the
    re-check of the cache after acquiring it collapse to the first check.
-/

/-- A hashable Python value.  `none` is Python `None`; `undef` is the
`_UNDEFINED` sentinel of `_factories.py`; `null` is the `NULL` `Constant` of
`base.py`. -/
inductive PyVal where
  | none
  | vint (n : Int)
  | vstr (s : String)
  | vbool (b : Bool)
  | obj (id : Nat)
  | null
  | undef
deriving DecidableEq, Repr

/-- Python truthiness, used by the `env or self._env` expression in
`Injector.scoped`. -/
def PyVal.truthy : PyVal → Bool
  | .none => false
  | .vint n => n != 0
  | .vstr s => s != ""
  | .vbool b => b
  | .obj _ => true
  | .null => true
  | .undef => true

/-- Observable executions of user-supplied construction code: `construct f o`
records that the setup part of user factory `f` ran and produced the object
with identity `o`; `teardown f` records that the post-yield teardown part of
user generator factory `f` ran. -/
inductive Event where
  | construct (fid : Nat) (objId : Nat)
  | teardown (fid : Nat)
deriving DecidableEq, Repr

/-- World effects: the fresh-object counter and the trace of user-code
executions. -/
structure Eff where
  nextObj : Nat
  log : List Event
deriving DecidableEq, Repr

/-- Run the setup part of user factory `fid`: allocate a fresh object. -/
def runConstruct (fid : Nat) (e : Eff) : PyVal × Eff :=
  (PyVal.obj e.nextObj, ⟨e.nextObj + 1, e.log ++ [Event.construct fid e.nextObj]⟩)

/-- Run the teardown part of user generator factory `fid`. -/
def runTeardown (fid : Nat) (e : Eff) : Eff :=
  ⟨e.nextObj, e.log ++ [Event.teardown fid]⟩

/-- State of a (single-yield) user generator object. -/
inductive GenState where
  | created
  | suspended
  | finished
deriving DecidableEq, Repr

/-- `next()` on a canonical single-yield user generator
(`v = setup(); yield v; teardown()`): on a fresh generator it runs setup and
yields a fresh object; on a suspended generator it runs teardown and raises
StopIteration (returned as `Option.none`); on a finished generator it raises
StopIteration without running anything. -/
def genNext (fid : Nat) : GenState → Eff → Option PyVal × GenState × Eff
  | .created, e =>
      match runConstruct fid e with
      | (v, e1) => (some v, .suspended, e1)
  | .suspended, e => (Option.none, .finished, runTeardown fid e)
  | .finished, e => (Option.none, .finished, e)

/-- The five bound-factory adapter classes of `pydio/_factories.py`
(`FunctionFactory`, `GeneratorFactory`, `CoroutineFactory`,
`AsyncGeneratorFactory`, `InstanceFactory`). -/
inductive BFKind where
  | function
  | generator
  | coroutine
  | asyncGen
  | instanceVal
deriving DecidableEq, Repr

/-- The `awaitable` class attribute of each adapter in `_factories.py`. -/
def BFKind.awaitable : BFKind → Bool
  | .coroutine => true
  | .asyncGen => true
  | _ => false

/-- A bound factory: the mutable state of one `_factories.py` adapter
instance.  `inst` is the `_instance` field (`_value` for `InstanceFactory`),
initially `PyVal.undef` for the lazy kinds; `gen` is the state of the wrapped
user generator (meaningful for `generator` / `asyncGen`, `created` otherwise);
`fid` identifies the wrapped user function in the event log. -/
structure BF where
  kind : BFKind
  fid : Nat
  inst : PyVal
  gen : GenState
deriving DecidableEq, Repr

/-- An unbound factory: `UnboundFunctionFactory` of
`pydio/_unbound_factories.py` (with the bound adapter class already selected
from the shape of the user function, as `__get_factory_class_for` does), or
`UnboundInstanceFactory` when `kind = instanceVal` (then `value` is the
registered constant). -/
structure UnboundFactory where
  kind : BFKind
  value : PyVal
  scope : PyVal
  env : PyVal
  fid : Nat
deriving DecidableEq, Repr

/-- `UnboundFunctionFactory.bind` / `UnboundInstanceFactory.bind`: construct
the adapter.  `FunctionFactory.__init__` calls the user function eagerly; the
generator/coroutine kinds only create the (not yet started) generator or
coroutine object; `InstanceFactory` stores the registered value. -/
def UnboundFactory.bind (u : UnboundFactory) (e : Eff) : BF × Eff :=
  match u.kind with
  | .function =>
      match runConstruct u.fid e with
      | (v, e1) => (⟨.function, u.fid, v, .created⟩, e1)
  | .generator => (⟨.generator, u.fid, .undef, .created⟩, e)
  | .coroutine => (⟨.coroutine, u.fid, .undef, .created⟩, e)
  | .asyncGen => (⟨.asyncGen, u.fid, .undef, .created⟩, e)
  | .instanceVal => (⟨.instanceVal, u.fid, u.value, .created⟩, e)

/-- `get_instance` of each adapter in `_factories.py`; for the awaitable kinds
this is the state after the coroutine returned by `get_instance()` has been
awaited.  The result value is `Option.none` when the call raises
(StopIteration / StopAsyncIteration escaping the lazy first `next`); in that
case, as in the source, `_instance` is left unassigned. -/
def BF.getInstance (b : BF) (e : Eff) : Option PyVal × BF × Eff :=
  match b.kind with
  | .function => (some b.inst, b, e)
  | .instanceVal => (some b.inst, b, e)
  | .coroutine =>
      if b.inst = .undef then
        match runConstruct b.fid e with
        | (v, e1) => (some v, { b with inst := v }, e1)
      else (some b.inst, b, e)
  | .generator =>
      if b.inst = .undef then
        match genNext b.fid b.gen e with
        | (some v, g1, e1) => (some v, { b with inst := v, gen := g1 }, e1)
        | (Option.none, g1, e1) => (Option.none, { b with gen := g1 }, e1)
      else (some b.inst, b, e)
  | .asyncGen =>
      if b.inst = .undef then
        match genNext b.fid b.gen e with
        | (some v, g1, e1) => (some v, { b with inst := v, gen := g1 }, e1)
        | (Option.none, g1, e1) => (Option.none, { b with gen := g1 }, e1)
      else (some b.inst, b, e)

/-- `close` of each adapter in `_factories.py` (the `exc_type is None` path,
which is the one reached by `Injector.close`); for the awaitable kinds this is
the state after the coroutine returned by `close()` has been awaited.  Every
adapter sets `_instance` (resp. `_value`) to Python `None`; the generator
kinds additionally resume the generator once when the previous instance was
not `_UNDEFINED`, swallowing StopIteration. -/
def BF.close (b : BF) (e : Eff) : BF × Eff :=
  match b.kind with
  | .function => ({ b with inst := .none }, e)
  | .instanceVal => ({ b with inst := .none }, e)
  | .coroutine => ({ b with inst := .none }, e)
  | .generator =>
      if b.inst = .undef then ({ b with inst := .none }, e)
      else
        match genNext b.fid b.gen e with
        | (_, g1, e1) => ({ b with inst := .none, gen := g1 }, e1)
  | .asyncGen =>
      if b.inst = .undef then ({ b with inst := .none }, e)
      else
        match genNext b.fid b.gen e with
        | (_, g1, e1) => ({ b with inst := .none, gen := g1 }, e1)

/-- Lookup in an insertion-ordered Python dict rendered as an association
list. -/
def assocGet {κ α : Type} [DecidableEq κ] : List (κ × α) → κ → Option α
  | [], _ => Option.none
  | (k1, v1) :: rest, k => if k1 = k then some v1 else assocGet rest k

/-- `d[k] = v` on an insertion-ordered Python dict: replace in place if the
key is present, else append. -/
def assocSet {κ α : Type} [DecidableEq κ] : List (κ × α) → κ → α → List (κ × α)
  | [], k, v => [(k, v)]
  | (k1, v1) :: rest, k, v =>
      if k1 = k then (k1, v) :: rest else (k1, v1) :: assocSet rest k v

/-- `Provider.DoubleRegistrationError` of `pydio/provider.py`. -/
inductive PErr where
  | doubleRegistration (key env : PyVal)
deriving DecidableEq, Repr

/-- The `Provider` registry of `pydio/provider.py`: a dict mapping key to a
dict mapping environment to unbound factory (`self._unbound_factories`). -/
structure Provider where
  regs : List (PyVal × List (PyVal × UnboundFactory))
deriving DecidableEq, Repr

/-- Direct nested lookup `self._unbound_factories.get(key, {}).get(env)`,
as done by `Provider._check_key_availability`. -/
def Provider.rawGet (p : Provider) (key env : PyVal) : Option UnboundFactory :=
  assocGet ((assocGet p.regs key).getD []) env

/-- `Provider.get`: look up `(key, env)`; when that misses and `env != None`,
fall back to the `(key, None)` entry. -/
def Provider.get (p : Provider) (key env : PyVal) : Option UnboundFactory :=
  let envs := (assocGet p.regs key).getD []
  let found := assocGet envs env
  if found.isNone ∧ env ≠ PyVal.none then assocGet envs PyVal.none else found

/-- All registered `(key, env, factory)` entries, in the iteration order of
the nested dicts (`Provider._iter_factory_funcs` enriched with the keys). -/
def Provider.entries (p : Provider) : List (PyVal × PyVal × UnboundFactory) :=
  p.regs.flatMap (fun ke => ke.2.map (fun ef => (ke.1, ef.1, ef.2)))

/-- `Provider.has_awaitables`: some registered factory is awaitable. -/
def Provider.hasAwaitables (p : Provider) : Bool :=
  p.entries.any (fun kef => kef.2.2.kind.awaitable)

/-- `self._unbound_factories.setdefault(key, {})[env] = u`. -/
def Provider.setReg (p : Provider) (key env : PyVal) (u : UnboundFactory) :
    Provider :=
  ⟨assocSet p.regs key (assocSet ((assocGet p.regs key).getD []) env u)⟩

/-- `Provider.register_func`: check availability of `(key, env)` first, then
store an unbound function factory.  The adapter kind is the one
`UnboundFunctionFactory` selects from the shape of `func`
(async generator / coroutine / generator / plain function). -/
def Provider.registerFunc (p : Provider) (key : PyVal) (kind : BFKind)
    (fid : Nat) (scope env : PyVal) : Except PErr Provider :=
  if (p.rawGet key env).isSome then .error (.doubleRegistration key env)
  else .ok (p.setReg key env ⟨kind, PyVal.none, scope, env, fid⟩)

/-- `Provider.register_instance`: check availability, then store an unbound
instance factory wrapping `value`. -/
def Provider.registerInstance (p : Provider) (key value : PyVal)
    (scope env : PyVal) : Except PErr Provider :=
  if (p.rawGet key env).isSome then .error (.doubleRegistration key env)
  else .ok (p.setReg key env ⟨.instanceVal, value, scope, env, 0⟩)

/-- `Provider.provides`: the decorator form just calls `register_func` on the
decorated function (and returns the function unchanged). -/
def Provider.provides (p : Provider) (key : PyVal) (kind : BFKind) (fid : Nat)
    (scope env : PyVal) : Except PErr Provider :=
  p.registerFunc key kind fid scope env

/-- The loop body of `Provider.attach` over the other provider's `(key, env)`
entries: each entry is checked against the accumulating provider and then
inserted; the first collision stops the merge (the source raises there),
leaving the already-copied entries in place. -/
def attachPairs (p : Provider) :
    List (PyVal × PyVal × UnboundFactory) → Provider × Option PErr
  | [] => (p, Option.none)
  | (key, env, u) :: rest =>
      if (p.rawGet key env).isSome then (p, some (.doubleRegistration key env))
      else attachPairs (p.setReg key env u) rest

/-- `Provider.attach`: merge the other provider's entries into this one. -/
def Provider.attach (p q : Provider) : Provider × Option PErr :=
  attachPairs p q.entries

/-- The exceptions an injector call can raise (`pydio/injector.py` and the
built-in `ValueError` raised by `Injector.scoped`), plus two model-only
outcomes: `invalidPath` flags a path that addresses no injector in the tree
(impossible in Python, where injectors are reached by reference), and
`stopIteration` is a StopIteration/StopAsyncIteration escaping a user
generator that finished without yielding. -/
inductive InjErr where
  | alreadyClosed
  | noProviderFound (key env : PyVal)
  | outOfScope (key scope requiredScope : PyVal)
  | valueErrorScopedEnv (expected got : PyVal)
  | invalidPath
  | stopIteration
deriving DecidableEq, Repr

/-- The per-injector state of `Injector.__init__`: `provider` is
`self._provider` (`Option.none` once closed), `env` is `self._env`, `scope`
is `self._scope` (`PyVal.none` for a root injector), `cache` is
`self._cache` in insertion order. -/
structure NodeState where
  provider : Option Provider
  env : PyVal
  scope : PyVal
  cache : List (PyVal × BF)
deriving Repr

/-- The tree of injectors: each node is one `Injector`; the child list is
`self._child_injectors`; the parent reference is implicit in the tree
structure (a node's parent is the node above it). -/
inductive ITree where
  | node (st : NodeState) (cs : List ITree)

/-- The injector state stored at a node. -/
def ITree.st : ITree → NodeState
  | .node s _ => s

/-- The child injectors of a node. -/
def ITree.children : ITree → List ITree
  | .node _ cs => cs

/-- Navigate a root-to-node path (each step selects a child by index). -/
def getNode : ITree → List Nat → Option ITree
  | t, [] => some t
  | .node _ cs, i :: p =>
      match cs[i]? with
      | some c => getNode c p
      | Option.none => Option.none

/-- The injector state at a root-to-node path. -/
def stateAt (t : ITree) (p : List Nat) : Option NodeState :=
  (getNode t p).map ITree.st

/-- Replace the state of the node at a root-to-node path (identity when the
path is invalid).  Only that node's own state changes; the tree shape and all
other nodes are untouched. -/
def modifyState : ITree → List Nat → (NodeState → NodeState) → ITree
  | .node s cs, [], f => .node (f s) cs
  | .node s cs, i :: p, f =>
      match cs[i]? with
      | some c => .node s (cs.set i (modifyState c p f))
      | Option.none => .node s cs

/-- Append a new child to the node at a root-to-node path (identity when the
path is invalid); used by `Injector.scoped`
(`self._child_injectors.append(injector)`). -/
def appendChild : ITree → List Nat → ITree → ITree
  | .node s cs, [], c => .node s (cs ++ [c])
  | .node s cs, i :: p, c =>
      match cs[i]? with
      | some ci => .node s (cs.set i (appendChild ci p c))
      | Option.none => .node s cs

/-- `Injector(provider, env)`: a fresh root injector (empty cache, no scope,
no children). -/
def mkRoot (p : Provider) (env : PyVal) : ITree :=
  .node ⟨some p, env, PyVal.none, []⟩ []

/-- The body of `Injector.inject` for one injector, with the delegation
outcome supplied as an argument (`parentResult` is `Option.none` exactly when
the injector has no parent; otherwise it is the value of
`self._parent.inject(key)`, used only in the scope-mismatch branch).
Following the source: the cache fast path is checked first (before the closed
check); then, under the lock, the closed check, the provider lookup with
`self._env`, the scope comparison, and finally `bind`, caching, and
`get_instance`.  The post-lock cache re-check of the source collapses to the
first check in this single-threaded model.  `fpath` is the root-to-node path
of the injector. -/
def injectCore (t : ITree) (fpath : List Nat) (key : PyVal) (e : Eff)
    (parentResult : Option (Except InjErr (PyVal × ITree × Eff))) :
    Except InjErr (PyVal × ITree × Eff) :=
  match stateAt t fpath with
  | Option.none => .error .invalidPath
  | some st =>
    match assocGet st.cache key with
    | some bf =>
        match BF.getInstance bf e with
        | (some v, bf1, e1) =>
            .ok (v, modifyState t fpath
                  (fun s => { s with cache := assocSet s.cache key bf1 }), e1)
        | (Option.none, _, _) => .error .stopIteration
    | Option.none =>
      match st.provider with
      | Option.none => .error .alreadyClosed
      | some p =>
        match p.get key st.env with
        | Option.none => .error (.noProviderFound key st.env)
        | some u =>
          if u.scope = st.scope then
            match u.bind e with
            | (bf0, e1) =>
              match BF.getInstance bf0 e1 with
              | (some v, bf1, e2) =>
                  .ok (v, modifyState t fpath
                        (fun s => { s with cache := assocSet s.cache key bf1 }),
                      e2)
              | (Option.none, _, _) => .error .stopIteration
          else
            match parentResult with
            | Option.none => .error (.outOfScope key st.scope u.scope)
            | some r => r

/-- `Injector.inject`.  An injector is addressed by its node-to-root path
`rpath` (head = index of this node among its parent's children, tail = the
parent's own `rpath`; `[]` is the root, which has no parent).  The root has
no parent to delegate to; any other injector delegates to the injector at the
tail of its path. -/
def inject (t : ITree) : List Nat → PyVal → Eff →
    Except InjErr (PyVal × ITree × Eff)
  | [], key, e => injectCore t (List.reverse []) key e Option.none
  | i :: parentR, key, e =>
      injectCore t (List.reverse (i :: parentR)) key e
        (some (inject t parentR key e))

/-- `Injector.scoped`: validate the explicitly requested environment against
this injector's own, then create a child injector sharing `self._provider`,
with environment `env or self._env` (Python truthiness) and the requested
scope, and append it to the children.  Returns the new tree and the child's
node-to-root path. -/
def scopedInjector (t : ITree) (rpath : List Nat) (scope env : PyVal) :
    Except InjErr (ITree × List Nat) :=
  match getNode t rpath.reverse with
  | Option.none => .error .invalidPath
  | some n =>
    if env ≠ PyVal.none ∧ n.st.env ≠ PyVal.none ∧ n.st.env ≠ env then
      .error (.valueErrorScopedEnv n.st.env env)
    else
      .ok (appendChild t rpath.reverse
             (.node ⟨n.st.provider, if env.truthy then env else n.st.env,
                     scope, []⟩ []),
           n.children.length :: rpath)

/-- The cache loop of `Injector._do_close`: `instance.close(...)` is called on
every cached bound factory in order.  Non-awaitable factories close on the
spot and return `None`; awaitable factories only create a close coroutine
here (collected into `awaitables`, run later when awaited), so their state is
unchanged in this synchronous phase. -/
def closeCacheSync : List (PyVal × BF) → Eff → List (PyVal × BF) × Eff
  | [], e => ([], e)
  | (k, bf) :: rest, e =>
      if bf.kind.awaitable then
        match closeCacheSync rest e with
        | (rest1, e1) => ((k, bf) :: rest1, e1)
      else
        match BF.close bf e with
        | (bf1, e1) =>
          match closeCacheSync rest e1 with
          | (rest1, e2) => ((k, bf1) :: rest1, e2)

/-- The await phase for a cache: awaiting the collected factory close
coroutines, i.e. running `BF.close` on the awaitable factories (the others
were already closed in the synchronous phase). -/
def closeCacheAsync : List (PyVal × BF) → Eff → List (PyVal × BF) × Eff
  | [], e => ([], e)
  | (k, bf) :: rest, e =>
      if bf.kind.awaitable then
        match BF.close bf e with
        | (bf1, e1) =>
          match closeCacheAsync rest e1 with
          | (rest1, e2) => ((k, bf1) :: rest1, e2)
      else
        match closeCacheAsync rest e with
        | (rest1, e1) => ((k, bf) :: rest1, e1)

/-- Fold a per-node close over a child list, left to right (the
`for child in self._child_injectors` loop). -/
def closeChildrenWith (rec : ITree → Eff → ITree × Eff × Bool) :
    List ITree → Eff → List ITree × Eff
  | [], e => ([], e)
  | c :: rest, e =>
      match rec c e with
      | (c1, e1, _) =>
        match closeChildrenWith rec rest e1 with
        | (rest1, e2) => (c1 :: rest1, e2)

/-- One unfolding of the synchronous part of `Injector._do_close`: when
already closed, the whole body is skipped and `None` is returned; otherwise
close the children recursively, close the cached instances (collecting the
awaitable ones for later), and then either clear the provider reference
(no awaitable factory registered: fully closed now, returns `None`) or keep
it and return the `do_async_close` coroutine (the `Bool` in the result is
`true` exactly when a coroutine is returned). -/
def closeNodeStep (rec : ITree → Eff → ITree × Eff × Bool) :
    ITree → Eff → ITree × Eff × Bool
  | .node st cs, e =>
    match st.provider with
    | Option.none => (.node st cs, e, false)
    | some p =>
      match closeChildrenWith rec cs e with
      | (cs1, e1) =>
        match closeCacheSync st.cache e1 with
        | (cache1, e2) =>
          if p.hasAwaitables then
            (.node { st with cache := cache1 } cs1, e2, true)
          else
            (.node { st with provider := Option.none, cache := cache1 } cs1,
             e2, false)

/-- The synchronous part of `Injector._do_close` (and of `Injector.close`),
fuel-indexed for termination; any fuel exceeding the tree depth computes the
real recursion. -/
def closeNodeF : Nat → ITree → Eff → ITree × Eff × Bool
  | 0, t, e => (t, e, false)
  | fuel + 1, t, e => closeNodeStep (closeNodeF fuel) t e

/-- Fold the await phase over a child list (awaiting the child close
coroutines in collection order). -/
def awaitChildrenWith (rec : ITree → Eff → ITree × Eff) :
    List ITree → Eff → List ITree × Eff
  | [], e => ([], e)
  | c :: rest, e =>
      match rec c e with
      | (c1, e1) =>
        match awaitChildrenWith rec rest e1 with
        | (rest1, e2) => (c1 :: rest1, e2)

/-- One unfolding of awaiting the `do_async_close` coroutine returned by
`_do_close`: clear the provider reference, then await the collected
awaitables in order — the child injectors' own close coroutines first, then
the awaitable cached factories' close coroutines.  Nodes that were already
closed contributed no coroutine and are skipped. -/
def awaitNodeStep (rec : ITree → Eff → ITree × Eff) :
    ITree → Eff → ITree × Eff
  | .node st cs, e =>
    match st.provider with
    | Option.none => (.node st cs, e)
    | some _ =>
      match awaitChildrenWith rec cs e with
      | (cs1, e1) =>
        match closeCacheAsync st.cache e1 with
        | (cache1, e2) =>
          (.node { st with provider := Option.none, cache := cache1 } cs1, e2)

/-- Awaiting the pending close of an injector subtree, fuel-indexed. -/
def awaitNodeF : Nat → ITree → Eff → ITree × Eff
  | 0, t, e => (t, e)
  | fuel + 1, t, e => awaitNodeStep (awaitNodeF fuel) t e

/-- `Injector.close`, completed: run the synchronous part and, when it
returned a coroutine, await it. -/
def fullCloseF (fuel : Nat) (t : ITree) (e : Eff) : ITree × Eff :=
  match closeNodeF fuel t e with
  | (t1, e1, pending) => if pending then awaitNodeF fuel t1 e1 else (t1, e1)

/-- `Injector.is_closed`: the provider reference has been cleared. -/
def isClosed (t : ITree) : Bool :=
  t.st.provider.isNone

/-- `Variant` of the live `src/pydio/variant.py` (the module re-exported by
`pydio/api.py`): a base key, the tuple of positional arguments
(`self._args`), and the named parameters (`self._kwargs`), the latter kept
in the order the keyword arguments were supplied (Python dicts preserve
insertion order; the names are distinct by the language's keyword-argument
rules).  The kwargs-only look-alikes `_variant.py` and `keys.py` are not
imported by the library. -/
structure Variant where
  key : PyVal
  args : List PyVal
  kwargs : List (String × PyVal)
deriving DecidableEq, Repr

/-- Python `dict.__eq__` on keyword-argument dicts: same size, and every
entry of the left dict is mapped to the same value by the right dict. -/
def dictBEq (a b : List (String × PyVal)) : Bool :=
  a.length == b.length && a.all (fun nv => assocGet b nv.1 == some nv.2)

/-- `Variant.__eq__`: same class, equal wrapped keys, equal positional
argument tuples (tuple equality is elementwise), and equal kwargs dicts. -/
def Variant.beq (v1 v2 : Variant) : Bool :=
  v1.key == v2.key && v1.args == v2.args && dictBEq v1.kwargs v2.kwargs

/-- The frozenset hashed by `Variant.__hash__`:
`frozenset(itertools.chain([self._key], self._args, self._kwargs.items()))`.
Python's `hash` is a fixed function of this set, so equal sets hash
identically. -/
def Variant.hashSet (v : Variant) : Finset (PyVal ⊕ (String × PyVal)) :=
  insert (Sum.inl v.key) (v.args.map Sum.inl ++ v.kwargs.map Sum.inr).toFinset

/-- Projection used to state concrete results: the value returned by an
`inject` call, with the updated tree dropped. -/
def injectVal (r : Except InjErr (PyVal × ITree × Eff)) : Except InjErr PyVal :=
  r.map (fun x => x.1)

/-- Projection: the effect state after an `inject` call. -/
def injectEff (r : Except InjErr (PyVal × ITree × Eff)) : Option Eff :=
  match r with
  | .ok x => some x.2.2
  | .error _ => Option.none

theorem assocGet_assocSet_self {κ α : Type} [DecidableEq κ]
    (l : List (κ × α)) (k : κ) (v : α) :
    assocGet (assocSet l k v) k = some v := by
  induction l with
  | nil => simp [assocSet, assocGet]
  | cons hd tl ih =>
      obtain ⟨k1, v1⟩ := hd
      by_cases h : k1 = k
      · simp [assocSet, assocGet, h]
      · simp [assocSet, assocGet, h, ih]

theorem assocGet_assocSet_ne {κ α : Type} [DecidableEq κ]
    (l : List (κ × α)) (k k1 : κ) (v : α) (h : k1 ≠ k) :
    assocGet (assocSet l k v) k1 = assocGet l k1 := by
  have hne : k ≠ k1 := Ne.symm h
  induction l with
  | nil => simp [assocSet, assocGet, hne]
  | cons hd tl ih =>
      obtain ⟨k2, v2⟩ := hd
      by_cases h2 : k2 = k
      · subst h2
        simp [assocSet, assocGet, hne]
      · by_cases h3 : k2 = k1 <;> simp [assocSet, assocGet, h, h2, h3, ih]

theorem assocSet_eq_self {κ α : Type} [DecidableEq κ]
    (l : List (κ × α)) (k : κ) (v : α) (h : assocGet l k = some v) :
    assocSet l k v = l := by
  induction l with
  | nil => simp [assocGet] at h
  | cons hd tl ih =>
      obtain ⟨k1, v1⟩ := hd
      by_cases h1 : k1 = k
      · simp [assocGet, h1] at h
        simp [assocSet, h1, h]
      · simp [assocGet, h1] at h
        simp [assocSet, h1, ih h]

theorem list_set_of_getElem {α : Type} (l : List α) (i : Nat) (a : α)
    (h : l[i]? = some a) : l.set i a = l := by
  apply List.ext_getElem?
  intro j
  by_cases hij : i = j
  · subst hij
    rw [List.getElem?_set_self (List.getElem?_eq_some.mp h).1]
    exact h.symm
  · rw [List.getElem?_set_ne hij]

theorem stateAt_modifyState_self (p : List Nat) (t : ITree)
    (f : NodeState → NodeState) :
    stateAt (modifyState t p f) p = (stateAt t p).map f := by
  induction p generalizing t with
  | nil =>
      obtain ⟨s, cs⟩ := t
      simp [modifyState, stateAt, getNode, ITree.st]
  | cons i p1 ih =>
      obtain ⟨s, cs⟩ := t
      cases hc : cs[i]? with
      | none => simp [modifyState, stateAt, getNode, hc]
      | some c =>
          have hl : i < cs.length := (List.getElem?_eq_some.mp hc).1
          simp only [modifyState, stateAt, getNode, hc,
            List.getElem?_set_self hl]
          exact ih c

theorem stateAt_modifyState_ne (p : List Nat) (t : ITree) (q : List Nat)
    (f : NodeState → NodeState) (h : q ≠ p) :
    stateAt (modifyState t p f) q = stateAt t q := by
  induction p generalizing t q with
  | nil =>
      obtain ⟨s, cs⟩ := t
      cases q with
      | nil => exact absurd rfl h
      | cons j q1 => simp [modifyState, stateAt, getNode]
  | cons i p1 ih =>
      obtain ⟨s, cs⟩ := t
      cases hc : cs[i]? with
      | none => simp [modifyState, hc]
      | some c =>
          cases q with
          | nil => simp [modifyState, stateAt, getNode, hc, ITree.st]
          | cons j q1 =>
              by_cases hij : i = j
              · subst hij
                have hq1 : q1 ≠ p1 := by
                  intro hq; exact h (by rw [hq])
                have hl : i < cs.length := (List.getElem?_eq_some.mp hc).1
                simp only [modifyState, stateAt, getNode, hc,
                  List.getElem?_set_self hl]
                exact ih c q1 hq1
              · simp only [modifyState, stateAt, getNode, hc,
                  List.getElem?_set_ne hij]

theorem modifyState_eq_self (p : List Nat) (t : ITree)
    (f : NodeState → NodeState)
    (h : ∀ st, stateAt t p = some st → f st = st) :
    modifyState t p f = t := by
  induction p generalizing t with
  | nil =>
      obtain ⟨s, cs⟩ := t
      have hs : f s = s := h s (by simp [stateAt, getNode, ITree.st])
      simp [modifyState, hs]
  | cons i p1 ih =>
      obtain ⟨s, cs⟩ := t
      cases hc : cs[i]? with
      | none => simp [modifyState, hc]
      | some c =>
          have hrec : modifyState c p1 f = c := by
            apply ih
            intro st hst
            apply h
            simp [stateAt, getNode, hc]
            simpa [stateAt] using hst
          simp only [modifyState, hc, hrec, list_set_of_getElem cs i c hc]

theorem getInstance_idem (b : BF) (e : Eff) (v : PyVal) (b1 : BF) (e1 : Eff)
    (h : BF.getInstance b e = (some v, b1, e1)) :
    BF.getInstance b1 e1 = (some v, b1, e1) := by
  cases hk : b.kind with
  | function =>
      simp [BF.getInstance, hk] at h
      obtain ⟨hv, hb, he⟩ := h
      subst hb
      simp [BF.getInstance, hk, hv, he]
  | instanceVal =>
      simp [BF.getInstance, hk] at h
      obtain ⟨hv, hb, he⟩ := h
      subst hb
      simp [BF.getInstance, hk, hv, he]
  | coroutine =>
      by_cases hu : b.inst = PyVal.undef
      · simp [BF.getInstance, hk, hu, runConstruct] at h
        obtain ⟨hv, hb, he⟩ := h
        subst hb
        simp [BF.getInstance, hk, ← hv]
      · simp [BF.getInstance, hk, hu] at h
        obtain ⟨hv, hb, he⟩ := h
        subst hb
        have hvne : v ≠ PyVal.undef := by rw [← hv]; exact hu
        simp [BF.getInstance, hk, hu, hv, he, hvne]
  | generator =>
      by_cases hu : b.inst = PyVal.undef
      · cases hg : b.gen with
        | created =>
            simp [BF.getInstance, hk, hu, hg, genNext, runConstruct] at h
            obtain ⟨hv, hb, he⟩ := h
            subst hb
            simp [BF.getInstance, hk, ← hv]
        | suspended => simp [BF.getInstance, hk, hu, hg, genNext] at h
        | finished => simp [BF.getInstance, hk, hu, hg, genNext] at h
      · simp [BF.getInstance, hk, hu] at h
        obtain ⟨hv, hb, he⟩ := h
        subst hb
        have hvne : v ≠ PyVal.undef := by rw [← hv]; exact hu
        simp [BF.getInstance, hk, hu, hv, he, hvne]
  | asyncGen =>
      by_cases hu : b.inst = PyVal.undef
      · cases hg : b.gen with
        | created =>
            simp [BF.getInstance, hk, hu, hg, genNext, runConstruct] at h
            obtain ⟨hv, hb, he⟩ := h
            subst hb
            simp [BF.getInstance, hk, ← hv]
        | suspended => simp [BF.getInstance, hk, hu, hg, genNext] at h
        | finished => simp [BF.getInstance, hk, hu, hg, genNext] at h
      · simp [BF.getInstance, hk, hu] at h
        obtain ⟨hv, hb, he⟩ := h
        subst hb
        have hvne : v ≠ PyVal.undef := by rw [← hv]; exact hu
        simp [BF.getInstance, hk, hu, hv, he, hvne]

theorem close_close_eq (b : BF) (e : Eff)
    (hinst : b.inst ≠ PyVal.undef) (hgen : b.gen ≠ GenState.created) :
    BF.close (BF.close b e).1 (BF.close b e).2 = BF.close b e := by
  cases hk : b.kind with
  | function => simp [BF.close, hk]
  | instanceVal => simp [BF.close, hk]
  | coroutine => simp [BF.close, hk]
  | generator =>
      cases hg : b.gen with
      | created => exact absurd hg hgen
      | suspended => simp [BF.close, hk, hinst, hg, genNext, runTeardown]
      | finished => simp [BF.close, hk, hinst, hg, genNext]
  | asyncGen =>
      cases hg : b.gen with
      | created => exact absurd hg hgen
      | suspended => simp [BF.close, hk, hinst, hg, genNext, runTeardown]
      | finished => simp [BF.close, hk, hinst, hg, genNext]

theorem ne_of_longer {p q : List Nat} (h : p.length < q.length) : q ≠ p := by
  intro hq
  rw [hq] at h
  exact Nat.lt_irrefl _ h

theorem injectCore_ok_cases (t : ITree) (fpath : List Nat) (k : PyVal)
    (e : Eff) (pr : Option (Except InjErr (PyVal × ITree × Eff)))
    (v : PyVal) (t1 : ITree) (e1 : Eff)
    (h : injectCore t fpath k e pr = .ok (v, t1, e1)) :
    (∃ bf1, t1 = modifyState t fpath
        (fun s => { s with cache := assocSet s.cache k bf1 })) ∨
    pr = some (.ok (v, t1, e1)) := by
  simp only [injectCore] at h
  repeat' split at h
  all_goals first
    | exact Except.noConfusion h
    | (simp only [Except.ok.injEq, Prod.mk.injEq] at h
       obtain ⟨hv, ht, he⟩ := h
       exact Or.inl ⟨_, ht.symm⟩)
    | exact Or.inr (by rw [h])

theorem inject_stateAt_longer (t : ITree) (rpath : List Nat) (k : PyVal)
    (e : Eff) (v : PyVal) (t1 : ITree) (e1 : Eff) (q : List Nat)
    (h : inject t rpath k e = .ok (v, t1, e1))
    (hq : rpath.length < q.length) :
    stateAt t1 q = stateAt t q := by
  induction rpath generalizing q with
  | nil =>
      rw [inject] at h
      rcases injectCore_ok_cases _ _ _ _ _ _ _ _ h with ⟨bf1, ht⟩ | hpr
      · subst ht
        refine stateAt_modifyState_ne (List.reverse []) t q _ ?_
        apply ne_of_longer
        simpa using hq
      · exact Option.noConfusion hpr
  | cons i r ih =>
      rw [inject] at h
      rcases injectCore_ok_cases _ _ _ _ _ _ _ _ h with ⟨bf1, ht⟩ | hpr
      · subst ht
        refine stateAt_modifyState_ne (List.reverse (i :: r)) t q _ ?_
        apply ne_of_longer
        simpa using hq
      · have hr : inject t r k e = .ok (v, t1, e1) := by
          injection hpr with hpr1
        exact ih q hr (by simp only [List.length_cons] at hq; omega)

theorem injectCore_cached_hit (t1 : ITree) (fpath : List Nat) (k : PyVal)
    (e1 : Eff) (pr : Option (Except InjErr (PyVal × ITree × Eff)))
    (st1 : NodeState) (bf1 : BF) (v : PyVal)
    (hst : stateAt t1 fpath = some st1)
    (hcache : assocGet st1.cache k = some bf1)
    (hgi : BF.getInstance bf1 e1 = (some v, bf1, e1)) :
    injectCore t1 fpath k e1 pr = .ok (v, t1, e1) := by
  have hmod : modifyState t1 fpath
      (fun s => { s with cache := assocSet s.cache k bf1 }) = t1 := by
    apply modifyState_eq_self
    intro st2 hst2
    rw [hst] at hst2
    injection hst2 with h2
    subst h2
    rw [assocSet_eq_self _ _ _ hcache]
  simp only [injectCore, hst, hcache, hgi, hmod]

theorem injectCore_delegate (t1 : ITree) (fpath : List Nat) (k : PyVal)
    (e1 : Eff) (st : NodeState) (p : Provider) (u : UnboundFactory)
    (r : Except InjErr (PyVal × ITree × Eff))
    (hst : stateAt t1 fpath = some st)
    (hcache : assocGet st.cache k = Option.none)
    (hp : st.provider = some p)
    (hu : p.get k st.env = some u)
    (hscope : ¬u.scope = st.scope) :
    injectCore t1 fpath k e1 (some r) = r := by
  simp only [injectCore, hst, hcache, hp, hu, if_neg hscope]

theorem injectCore_ok_replay (t : ITree) (fpath : List Nat) (k : PyVal)
    (e : Eff) (pr : Option (Except InjErr (PyVal × ITree × Eff)))
    (v : PyVal) (t1 : ITree) (e1 : Eff)
    (h : injectCore t fpath k e pr = .ok (v, t1, e1)) :
    (∀ pr2, injectCore t1 fpath k e1 pr2 = .ok (v, t1, e1)) ∨
    (∃ st p u, stateAt t fpath = some st ∧
       assocGet st.cache k = Option.none ∧ st.provider = some p ∧
       p.get k st.env = some u ∧ ¬u.scope = st.scope ∧
       pr = some (.ok (v, t1, e1))) := by
  cases hst : stateAt t fpath with
  | none => simp [injectCore, hst] at h
  | some st =>
    cases hbf : assocGet st.cache k with
    | some bf =>
        rcases hgi : BF.getInstance bf e with ⟨ov, bf1, e2⟩
        cases ov with
        | none => simp [injectCore, hst, hbf, hgi] at h
        | some v0 =>
            simp only [injectCore, hst, hbf, hgi, Except.ok.injEq,
              Prod.mk.injEq] at h
            obtain ⟨hv, ht, he⟩ := h
            subst hv he ht
            left
            intro pr2
            apply injectCore_cached_hit _ fpath k _ pr2
              ({ st with cache := assocSet st.cache k bf1 }) bf1 _
            · rw [stateAt_modifyState_self, hst]
              rfl
            · exact assocGet_assocSet_self _ _ _
            · exact getInstance_idem bf e _ bf1 e2 hgi
    | none =>
      cases hp : st.provider with
      | none => simp [injectCore, hst, hbf, hp] at h
      | some p =>
        cases hu : p.get k st.env with
        | none => simp [injectCore, hst, hbf, hp, hu] at h
        | some u =>
          by_cases hsc : u.scope = st.scope
          · rcases hb : u.bind e with ⟨bf0, e2⟩
            rcases hgi : BF.getInstance bf0 e2 with ⟨ov, bf1, e3⟩
            cases ov with
            | none =>
                simp only [injectCore, hst, hbf, hp, hu] at h
                rw [if_pos hsc, hb] at h
                simp [hgi] at h
            | some v0 =>
                simp only [injectCore, hst, hbf, hp, hu] at h
                rw [if_pos hsc, hb] at h
                simp only [hgi, Except.ok.injEq, Prod.mk.injEq] at h
                obtain ⟨hv, ht, he⟩ := h
                subst hv he ht
                left
                intro pr2
                apply injectCore_cached_hit _ fpath k _ pr2
                  ({ st with cache := assocSet st.cache k bf1 }) bf1 _
                · rw [stateAt_modifyState_self, hst]
                  rfl
                · exact assocGet_assocSet_self _ _ _
                · exact getInstance_idem bf0 e2 _ bf1 e3 hgi
          · simp only [injectCore, hst, hbf, hp, hu] at h
            rw [if_neg hsc] at h
            cases pr with
            | none =>
                have h2 : Except.error (InjErr.outOfScope k st.scope u.scope)
                    = Except.ok (v, t1, e1) := h
                exact Except.noConfusion h2
            | some r =>
                right
                refine ⟨st, p, u, rfl, hbf, hp, hu, hsc, ?_⟩
                have h2 : r = Except.ok (v, t1, e1) := h
                rw [h2]

theorem inject_idem (t : ITree) (rpath : List Nat) (k : PyVal) (e : Eff)
    (v : PyVal) (t1 : ITree) (e1 : Eff)
    (h : inject t rpath k e = .ok (v, t1, e1)) :
    inject t1 rpath k e1 = .ok (v, t1, e1) := by
  induction rpath with
  | nil =>
      rw [inject] at h ⊢
      rcases injectCore_ok_replay _ _ _ _ _ _ _ _ h with hrep | ⟨st, p, u,
        hst, hbf, hp, hu, hsc, hpr⟩
      · exact hrep _
      · exact Option.noConfusion hpr
  | cons i r ih =>
      rw [inject] at h ⊢
      rcases injectCore_ok_replay _ _ _ _ _ _ _ _ h with hrep | ⟨st, p, u,
        hst, hbf, hp, hu, hsc, hpr⟩
      · exact hrep _
      · have hr : inject t r k e = .ok (v, t1, e1) := by
          injection hpr with hpr1
        have hst1 : stateAt t1 (List.reverse (i :: r)) = some st := by
          rw [inject_stateAt_longer t r k e v t1 e1 _ hr (by simp)]
          exact hst
        rw [injectCore_delegate t1 _ k e1 st p u _ hst1 hbf hp hu hsc]
        exact ih hr

theorem fullCloseF_of_closed (fuel : Nat) (t : ITree) (e : Eff)
    (h : isClosed t = true) : fullCloseF (fuel + 1) t e = (t, e) := by
  obtain ⟨st, cs⟩ := t
  have hp : st.provider = Option.none := by
    simpa [isClosed, ITree.st, Option.isNone_iff_eq_none] using h
  simp [fullCloseF, closeNodeF, closeNodeStep, hp]

theorem isClosed_fullCloseF (fuel : Nat) (t : ITree) (e : Eff) :
    isClosed (fullCloseF (fuel + 1) t e).1 = true := by
  obtain ⟨st, cs⟩ := t
  cases hp : st.provider with
  | none => simp [fullCloseF, closeNodeF, closeNodeStep, hp, isClosed, ITree.st]
  | some p =>
      rcases hcc : closeChildrenWith (closeNodeF fuel) cs e with ⟨cs1, e1⟩
      rcases hcs : closeCacheSync st.cache e1 with ⟨cache1, e2⟩
      by_cases ha : p.hasAwaitables
      · rcases hac : awaitChildrenWith (awaitNodeF fuel) cs1 e2 with ⟨cs2, e3⟩
        rcases hca : closeCacheAsync cache1 e3 with ⟨cache2, e4⟩
        simp [fullCloseF, closeNodeF, closeNodeStep, hp, hcc, hcs, ha,
          awaitNodeF, awaitNodeStep, hac, isClosed, ITree.st]
      · simp [fullCloseF, closeNodeF, closeNodeStep, hp, hcc, hcs, ha,
          isClosed, ITree.st]

theorem assocGet_eq_some_iff_mem {κ α : Type} [DecidableEq κ]
    (l : List (κ × α)) (k : κ) (a : α) (hnd : (l.map Prod.fst).Nodup) :
    assocGet l k = some a ↔ (k, a) ∈ l := by
  induction l with
  | nil => simp [assocGet]
  | cons hd tl ih =>
      obtain ⟨k1, v1⟩ := hd
      simp only [List.map_cons, List.nodup_cons] at hnd
      obtain ⟨hk1, hnd1⟩ := hnd
      by_cases h1 : k1 = k
      · subst h1
        simp only [assocGet, if_pos rfl, List.mem_cons]
        constructor
        · intro hv
          injection hv with hv
          exact Or.inl (by rw [hv])
        · rintro (hv | hv)
          · injection hv with hx hy
            simp [hy]
          · exact absurd (List.mem_map_of_mem Prod.fst hv) hk1
      · simp only [assocGet, if_neg h1, List.mem_cons]
        rw [ih hnd1]
        constructor
        · exact Or.inr
        · rintro (hv | hv)
          · injection hv with hx hy
            exact absurd hx.symm h1
          · exact hv

theorem assocGet_eq_none_iff {κ α : Type} [DecidableEq κ]
    (l : List (κ × α)) (k : κ) :
    assocGet l k = Option.none ↔ k ∉ l.map Prod.fst := by
  induction l with
  | nil => simp [assocGet]
  | cons hd tl ih =>
      obtain ⟨k1, v1⟩ := hd
      by_cases h1 : k1 = k
      · subst h1
        simp [assocGet]
      · simp only [assocGet, if_neg h1, List.map_cons, List.mem_cons, not_or,
          ih]
        constructor
        · intro h
          exact ⟨fun hc => h1 hc.symm, h⟩
        · intro h
          exact h.2

theorem mem_map_fst_iff {κ α : Type} (l : List (κ × α)) (k : κ) :
    k ∈ l.map Prod.fst ↔ ∃ v, (k, v) ∈ l := by
  rw [List.mem_map]
  constructor
  · rintro ⟨⟨k1, v1⟩, hm, hk⟩
    exact ⟨v1, by rwa [show k1 = k from hk] at hm⟩
  · rintro ⟨v, hv⟩
    exact ⟨(k, v), hv, rfl⟩

theorem keys_toFinset_eq {a b : List (String × PyVal)}
    (ha : (a.map Prod.fst).Nodup) (hb : (b.map Prod.fst).Nodup)
    (hlen : a.length = b.length)
    (hall : ∀ nv ∈ a, assocGet b nv.1 = some nv.2) :
    (a.map Prod.fst).toFinset = (b.map Prod.fst).toFinset := by
  apply Finset.eq_of_subset_of_card_le
  · intro n hn
    rw [List.mem_toFinset, mem_map_fst_iff] at hn
    obtain ⟨v, hv⟩ := hn
    rw [List.mem_toFinset, mem_map_fst_iff]
    exact ⟨v, (assocGet_eq_some_iff_mem b n v hb).mp (hall (n, v) hv)⟩
  · rw [List.toFinset_card_of_nodup ha, List.toFinset_card_of_nodup hb]
    simp [hlen]

theorem dictBEq_iff (a b : List (String × PyVal))
    (ha : (a.map Prod.fst).Nodup) (hb : (b.map Prod.fst).Nodup) :
    dictBEq a b = true ↔ ∀ n, assocGet a n = assocGet b n := by
  constructor
  · intro h
    simp only [dictBEq, Bool.and_eq_true, beq_iff_eq, List.all_eq_true] at h
    obtain ⟨hlen, hall⟩ := h
    intro n
    cases hga : assocGet a n with
    | some v =>
        have hm : (n, v) ∈ a := (assocGet_eq_some_iff_mem a n v ha).mp hga
        exact (hall (n, v) hm).symm
    | none =>
        rw [assocGet_eq_none_iff] at hga
        have hk := keys_toFinset_eq ha hb hlen hall
        cases hgb : assocGet b n with
        | none => rfl
        | some w =>
            exfalso
            apply hga
            have hnb : n ∈ b.map Prod.fst :=
              (mem_map_fst_iff b n).mpr
                ⟨w, (assocGet_eq_some_iff_mem b n w hb).mp hgb⟩
            have : n ∈ (a.map Prod.fst).toFinset := by
              rw [hk, List.mem_toFinset]
              exact hnb
            rwa [List.mem_toFinset] at this
  · intro hpt
    simp only [dictBEq, Bool.and_eq_true, beq_iff_eq, List.all_eq_true]
    constructor
    · have hset : (a.map Prod.fst).toFinset = (b.map Prod.fst).toFinset := by
        apply Finset.ext
        intro n
        rw [List.mem_toFinset, List.mem_toFinset]
        constructor
        · intro hn
          obtain ⟨v, hv⟩ := (mem_map_fst_iff a n).mp hn
          have := (assocGet_eq_some_iff_mem a n v ha).mpr hv
          rw [hpt n] at this
          exact (mem_map_fst_iff b n).mpr
            ⟨v, (assocGet_eq_some_iff_mem b n v hb).mp this⟩
        · intro hn
          obtain ⟨v, hv⟩ := (mem_map_fst_iff b n).mp hn
          have hgb := (assocGet_eq_some_iff_mem b n v hb).mpr hv
          rw [← hpt n] at hgb
          exact (mem_map_fst_iff a n).mpr
            ⟨v, (assocGet_eq_some_iff_mem a n v ha).mp hgb⟩
      have hca : (a.map Prod.fst).toFinset.card = a.length := by
        rw [List.toFinset_card_of_nodup ha]
        simp
      have hcb : (b.map Prod.fst).toFinset.card = b.length := by
        rw [List.toFinset_card_of_nodup hb]
        simp
      rw [← hca, ← hcb, hset]
    · intro nv hnv
      have := (assocGet_eq_some_iff_mem a nv.1 nv.2 ha).mpr hnv
      rw [hpt nv.1] at this
      exact this

theorem pairs_toFinset_eq (a b : List (String × PyVal))
    (ha : (a.map Prod.fst).Nodup) (hb : (b.map Prod.fst).Nodup)
    (hpt : ∀ n, assocGet a n = assocGet b n) :
    a.toFinset = b.toFinset := by
  apply Finset.ext
  rintro ⟨n, v⟩
  rw [List.mem_toFinset, List.mem_toFinset,
    ← assocGet_eq_some_iff_mem a n v ha, ← assocGet_eq_some_iff_mem b n v hb,
    hpt n]

theorem rawGet_setReg_ne (p : Provider) (k1 e1 k env : PyVal)
    (u : UnboundFactory) (hne : ¬(k1 = k ∧ e1 = env)) :
    (p.setReg k1 e1 u).rawGet k env = p.rawGet k env := by
  by_cases hk : k1 = k
  · subst hk
    have he : ¬e1 = env := fun hc => hne ⟨rfl, hc⟩
    simp only [Provider.setReg, Provider.rawGet, assocGet_assocSet_self]
    simp only [Option.getD_some]
    exact assocGet_assocSet_ne _ _ _ _ (fun hc => he hc.symm)
  · simp only [Provider.setReg, Provider.rawGet,
      assocGet_assocSet_ne _ _ _ _ (fun hc => hk hc.symm)]

theorem attachPairs_error_mem (p : Provider)
    (l : List (PyVal × PyVal × UnboundFactory)) (p1 : Provider)
    (k env : PyVal)
    (h : attachPairs p l = (p1, some (.doubleRegistration k env))) :
    (k, env) ∈ l.map (fun kef => (kef.1, kef.2.1)) := by
  induction l generalizing p with
  | nil => simp [attachPairs] at h
  | cons hd tl ih =>
      obtain ⟨k1, e1, u1⟩ := hd
      by_cases hc : (p.rawGet k1 e1).isSome
      · simp only [attachPairs, if_pos hc, Prod.mk.injEq, Option.some.injEq,
          PErr.doubleRegistration.injEq] at h
        simp only [List.map_cons, List.mem_cons]
        exact Or.inl (by rw [h.2.1, h.2.2])
      · simp only [attachPairs, if_neg hc] at h
        simp only [List.map_cons, List.mem_cons]
        exact Or.inr (ih _ h)

theorem attachPairs_collision (l : List (PyVal × PyVal × UnboundFactory))
    (hnd : (l.map (fun kef => (kef.1, kef.2.1))).Nodup) :
    ∀ acc p1 k env,
      attachPairs acc l = (p1, some (.doubleRegistration k env)) →
      p1.rawGet k env = acc.rawGet k env ∧
        (acc.rawGet k env).isSome = true := by
  induction l with
  | nil =>
      intro acc p1 k env h
      simp [attachPairs] at h
  | cons hd tl ih =>
      intro acc p1 k env h
      obtain ⟨k1, e1, u1⟩ := hd
      simp only [List.map_cons, List.nodup_cons] at hnd
      obtain ⟨hh, hnd1⟩ := hnd
      by_cases hc : (acc.rawGet k1 e1).isSome
      · simp only [attachPairs, if_pos hc, Prod.mk.injEq, Option.some.injEq,
          PErr.doubleRegistration.injEq] at h
        obtain ⟨hp1, hk, he⟩ := h
        subst hp1 hk he
        exact ⟨rfl, hc⟩
      · simp only [attachPairs, if_neg hc] at h
        have hm := attachPairs_error_mem _ tl p1 k env h
        have hne : ¬(k1 = k ∧ e1 = env) := by
          intro hkk
          apply hh
          rw [hkk.1, hkk.2]
          exact hm
        obtain ⟨h1, h2⟩ := ih hnd1 (acc.setReg k1 e1 u1) p1 k env h
        rw [rawGet_setReg_ne acc k1 e1 k env u1 hne] at h1 h2
        exact ⟨h1, h2⟩

/-- The `(key, env)` pairs of a provider's registry are pairwise distinct;
this always holds for the nested-dict registry of `provider.py` (a dict has
no duplicate keys) and is stated here as a predicate on the list model. -/
def Provider.PairsNodup (q : Provider) : Prop :=
  (q.entries.map (fun kef => (kef.1, kef.2.1))).Nodup

/-- `get_instance` on a factory whose `_instance` is already assigned (not
`_UNDEFINED`) returns it without running any user code. -/
theorem getInstance_stable (b : BF) (e : Eff) (h : b.inst ≠ PyVal.undef) :
    BF.getInstance b e = (some b.inst, b, e) := by
  cases hk : b.kind <;> simp [BF.getInstance, hk, h]

/-- Concrete fixture: a provider with key `"a"` registered (no scope, no env)
with a plain function factory, identified as user function 7. -/
def exProviderFun : Provider :=
  ⟨[(PyVal.vstr "a",
     [(PyVal.none, ⟨BFKind.function, PyVal.none, PyVal.none, PyVal.none, 7⟩)])]⟩

/-- A fresh effect state. -/
def exEff : Eff := ⟨0, []⟩

/-- A fresh root injector over `exProviderFun`. -/
def exRootFun : ITree := mkRoot exProviderFun PyVal.none

/-- Extraction helper: the tree after a successful inject (default on error). -/
def injTree (r : Except InjErr (PyVal × ITree × Eff)) (d : ITree) : ITree :=
  match r with
  | .ok x => x.2.1
  | .error _ => d

/-- Extraction helper: the effects after a successful inject. -/
def injEffD (r : Except InjErr (PyVal × ITree × Eff)) (d : Eff) : Eff :=
  match r with
  | .ok x => x.2.2
  | .error _ => d

/-- The first inject of key `"a"` on the fresh root. -/
def exC1Step : Except InjErr (PyVal × ITree × Eff) :=
  inject exRootFun [] (PyVal.vstr "a") exEff

/-- The injector after that inject. -/
def exC1T1 : ITree := injTree exC1Step exRootFun

/-- The effects after that inject. -/
def exC1E1 : Eff := injEffD exC1Step exEff

/-- The injector and effects after `close()` (the provider has no awaitable
factory, so fuel 1 completes the close). -/
def exC1C : ITree × Eff := fullCloseF 1 exC1T1 exC1E1

/-- C1 counterexample: on the closed injector `exC1C.1`, injecting the key
`"a"` that was injected (and therefore cached) before the close does NOT
raise `AlreadyClosedError`: the cache fast path of `Injector.inject` runs
before the closed check and returns the closed factory's stored instance
(Python `None`).  This falsifies the claim's "for every key — including a
key that was successfully injected (and therefore cached)". -/
theorem C1_counterexample :
    injectVal exC1Step = .ok (PyVal.obj 0) ∧
    isClosed exC1C.1 = true ∧
    injectVal (inject exC1C.1 [] (PyVal.vstr "a") exC1C.2) =
      .ok PyVal.none ∧
    injectVal (inject exC1C.1 [] (PyVal.vstr "a") exC1C.2) ≠
      .error .alreadyClosed := by
  have hv : injectVal (inject exC1C.1 [] (PyVal.vstr "a") exC1C.2) =
      .ok PyVal.none := rfl
  refine ⟨rfl, rfl, hv, ?_⟩
  rw [hv]
  intro h
  exact Except.noConfusion h

/-- C1 (amended): after `close()`, `inject(key)` raises `AlreadyClosedError`
for every key that is not in the injector's cache — in particular for every
key on an injector that never constructed anything — while for a key that
was injected (cached) before the close, `inject` does not raise: it returns
the closed bound factory's stored instance via the cache fast path, leaving
the injector unchanged. -/
theorem C1_amended :
    (∀ t rpath st k e, stateAt t rpath.reverse = some st →
        st.provider = Option.none → assocGet st.cache k = Option.none →
        inject t rpath k e = .error .alreadyClosed) ∧
    (∀ t rpath st k e bf, stateAt t rpath.reverse = some st →
        st.provider = Option.none → assocGet st.cache k = some bf →
        bf.inst ≠ PyVal.undef →
        inject t rpath k e = .ok (bf.inst, t, e)) := by
  constructor
  · intro t rpath st k e hst hp hbf
    cases rpath with
    | nil =>
        rw [inject]
        simp only [injectCore, hst, hbf, hp]
    | cons i r =>
        rw [inject]
        simp only [injectCore, hst, hbf, hp]
  · intro t rpath st k e bf hst hp hbf hinst
    have hgi := getInstance_stable bf e hinst
    cases rpath with
    | nil =>
        rw [inject]
        exact injectCore_cached_hit t (List.reverse []) k e Option.none st bf
          bf.inst hst hbf hgi
    | cons i r =>
        rw [inject]
        exact injectCore_cached_hit t (List.reverse (i :: r)) k e
          (some (inject t r k e)) st bf bf.inst hst hbf hgi

/-- Witness for the amended C1 at concrete inputs: on the closed injector,
the never-injected key `"b"` raises the already-closed error, while the
previously cached key `"a"` returns `None` without raising. -/
theorem C1_amended_witness :
    inject exC1C.1 [] (PyVal.vstr "b") exC1C.2 = .error .alreadyClosed ∧
    inject exC1C.1 [] (PyVal.vstr "a") exC1C.2 =
      .ok (PyVal.none, exC1C.1, exC1C.2) := by
  constructor
  · exact C1_amended.1 exC1C.1 [] _ (PyVal.vstr "b") exC1C.2 rfl rfl rfl
  · have h := C1_amended.2 exC1C.1 [] _ (PyVal.vstr "a") exC1C.2
      ⟨BFKind.function, 7, PyVal.none, GenState.created⟩ rfl rfl rfl
      (by decide)
    exact h

/-- The bound factory obtained by binding the function-factory registration
of `exProviderFun` (construction runs eagerly, producing object 0). -/
def exBF : BF :=
  (UnboundFactory.bind ⟨BFKind.function, PyVal.none, PyVal.none, PyVal.none, 7⟩
    exEff).1

/-- That factory after `close()`. -/
def exBFClosed : BF × Eff := BF.close exBF ⟨1, [Event.construct 7 0]⟩

/-- C2 counterexample: after `close()`, `FunctionFactory.get_instance` (from
the live module `_factories.py`, whose `close` assigns `self._instance =
None`) returns Python `None`, not the `NULL` sentinel — the two are distinct
values, so the claim's "returns the NULL sentinel value" is false. -/
theorem C2_counterexample :
    (BF.getInstance exBFClosed.1 exBFClosed.2).1 = some PyVal.none ∧
    (PyVal.none ≠ PyVal.null) := by
  exact ⟨rfl, by decide⟩

/-- C2 (amended): for every bound factory adapter (function-, instance-,
generator-, coroutine-, or async-generator-based), after `close()` has
completed, `get_instance()` returns Python `None` (not the `NULL` sentinel),
and does not re-run the construction function: the factory state and the
effect log are returned unchanged. -/
theorem C2_amended (b : BF) (e : Eff) :
    BF.getInstance (BF.close b e).1 (BF.close b e).2 =
      (some PyVal.none, (BF.close b e).1, (BF.close b e).2) := by
  cases hk : b.kind with
  | function => simp [BF.close, BF.getInstance, hk]
  | instanceVal => simp [BF.close, BF.getInstance, hk]
  | coroutine => simp [BF.close, BF.getInstance, hk]
  | generator =>
      by_cases hu : b.inst = PyVal.undef
      · simp [BF.close, BF.getInstance, hk, hu]
      · rcases hg : genNext b.fid b.gen e with ⟨ov, g1, e1⟩
        simp [BF.close, BF.getInstance, hk, hu, hg]
  | asyncGen =>
      by_cases hu : b.inst = PyVal.undef
      · simp [BF.close, BF.getInstance, hk, hu]
      · rcases hg : genNext b.fid b.gen e with ⟨ov, g1, e1⟩
        simp [BF.close, BF.getInstance, hk, hu, hg]

theorem injectCore_match_scope (t : ITree) (fpath : List Nat) (k : PyVal)
    (e : Eff) (pr : Option (Except InjErr (PyVal × ITree × Eff)))
    (st : NodeState) (p : Provider) (u : UnboundFactory)
    (hst : stateAt t fpath = some st)
    (hmiss : assocGet st.cache k = Option.none)
    (hp : st.provider = some p) (hu : p.get k st.env = some u)
    (hsc : u.scope = st.scope) (v : PyVal) (t1 : ITree) (e1 : Eff)
    (h : injectCore t fpath k e pr = .ok (v, t1, e1)) :
    ∃ bf1, t1 = modifyState t fpath
      (fun s => { s with cache := assocSet s.cache k bf1 }) := by
  simp only [injectCore, hst, hmiss, hp, hu, if_pos hsc] at h
  rcases hb : u.bind e with ⟨bf0, e2⟩
  rw [hb] at h
  rcases hgi : BF.getInstance bf0 e2 with ⟨ov, bf1, e3⟩
  rw [hgi] at h
  cases ov with
  | none => exact Except.noConfusion h
  | some v0 =>
      simp only [Except.ok.injEq, Prod.mk.injEq] at h
      exact ⟨bf1, h.2.1.symm⟩

/-- C3: for a key registered with a plain function- or generator-based
factory, (1) any two consecutive `inject(k)` calls on the same injector
return the identical object and the second call changes nothing (in
particular the construction function does not run again: the effect log is
unchanged), and (2) two distinct fresh root injectors built over the same
provider each construct their own object for `k`, and the two objects are
distinct. -/
theorem C3_thm :
    (∀ t rpath k e v t1 e1, inject t rpath k e = .ok (v, t1, e1) →
        inject t1 rpath k e1 = .ok (v, t1, e1)) ∧
    (∀ p env k u e, p.get k env = some u → u.scope = PyVal.none →
        (u.kind = BFKind.function ∨ u.kind = BFKind.generator) →
        ∃ t1 t2,
          inject (mkRoot p env) [] k e =
            .ok (PyVal.obj e.nextObj, t1,
              ⟨e.nextObj + 1, e.log ++ [Event.construct u.fid e.nextObj]⟩) ∧
          inject (mkRoot p env) [] k
              ⟨e.nextObj + 1, e.log ++ [Event.construct u.fid e.nextObj]⟩ =
            .ok (PyVal.obj (e.nextObj + 1), t2,
              ⟨e.nextObj + 2, e.log ++ [Event.construct u.fid e.nextObj,
                Event.construct u.fid (e.nextObj + 1)]⟩) ∧
          PyVal.obj e.nextObj ≠ PyVal.obj (e.nextObj + 1)) := by
  constructor
  · intro t rpath k e v t1 e1 h
    exact inject_idem t rpath k e v t1 e1 h
  · intro p env k u e hu hs hk
    have hone : ∀ ee : Eff, ∃ tt, inject (mkRoot p env) [] k ee =
        .ok (PyVal.obj ee.nextObj, tt,
          ⟨ee.nextObj + 1, ee.log ++ [Event.construct u.fid ee.nextObj]⟩) := by
      intro ee
      rw [inject]
      have hst : stateAt (mkRoot p env) (List.reverse []) =
          some ⟨some p, env, PyVal.none, []⟩ := rfl
      rcases hk with hk | hk
      · refine ⟨ITree.node ⟨some p, env, PyVal.none,
          [(k, ⟨BFKind.function, u.fid, PyVal.obj ee.nextObj,
            GenState.created⟩)]⟩ [], ?_⟩
        simp only [injectCore, hst, assocGet, hu]
        rw [if_pos hs]
        simp [UnboundFactory.bind, hk, BF.getInstance, runConstruct,
          mkRoot, modifyState, assocSet]
      · refine ⟨ITree.node ⟨some p, env, PyVal.none,
          [(k, ⟨BFKind.generator, u.fid, PyVal.obj ee.nextObj,
            GenState.suspended⟩)]⟩ [], ?_⟩
        simp only [injectCore, hst, assocGet, hu]
        rw [if_pos hs]
        simp [UnboundFactory.bind, hk, BF.getInstance, genNext, runConstruct,
          mkRoot, modifyState, assocSet]
    obtain ⟨t1, h1⟩ := hone e
    obtain ⟨t2, h2⟩ := hone ⟨e.nextObj + 1,
      e.log ++ [Event.construct u.fid e.nextObj]⟩
    refine ⟨t1, t2, h1, ?_, by simp⟩
    simpa using h2

/-- Witness for C3 at concrete inputs: repeated injection of `"a"` on the
same injector returns object 0 again without effects, and two fresh root
injectors over `exProviderFun` construct objects 0 and 1 respectively. -/
theorem C3_witness :
    inject exC1T1 [] (PyVal.vstr "a") exC1E1 =
      .ok (PyVal.obj 0, exC1T1, exC1E1) ∧
    (∃ t1 t2,
      inject (mkRoot exProviderFun PyVal.none) [] (PyVal.vstr "a") exEff =
        .ok (PyVal.obj 0, t1, ⟨1, [Event.construct 7 0]⟩) ∧
      inject (mkRoot exProviderFun PyVal.none) [] (PyVal.vstr "a")
          ⟨1, [Event.construct 7 0]⟩ =
        .ok (PyVal.obj 1, t2,
          ⟨2, [Event.construct 7 0, Event.construct 7 1]⟩) ∧
      PyVal.obj 0 ≠ PyVal.obj 1) := by
  constructor
  · exact C3_thm.1 exRootFun [] (PyVal.vstr "a") exEff (PyVal.obj 0) exC1T1
      exC1E1 rfl
  · have h := C3_thm.2 exProviderFun PyVal.none (PyVal.vstr "a")
      ⟨BFKind.function, PyVal.none, PyVal.none, PyVal.none, 7⟩ exEff rfl rfl
      (Or.inl rfl)
    simpa [exEff] using h

/-- C4: when the provider returns an unbound factory whose scope differs from
the resolving injector's own scope, (1) an injector with a parent returns
exactly the result of delegating the whole `inject(key)` call to the parent,
and on success its own state (in particular its cache) is unchanged — while
the ancestor at which the scope matches stores the bound factory in its own
cache — and (2) an injector without a parent raises `OutOfScopeError`
carrying the key, its own scope, and the factory's required scope. -/
theorem C4_thm :
    (∀ t i r st k e p u, stateAt t (i :: r).reverse = some st →
        assocGet st.cache k = Option.none → st.provider = some p →
        p.get k st.env = some u → ¬u.scope = st.scope →
          inject t (i :: r) k e = inject t r k e ∧
          (∀ v t1 e1, inject t r k e = .ok (v, t1, e1) →
              stateAt t1 (i :: r).reverse = some st)) ∧
    (∀ t rpath st k e p u, stateAt t rpath.reverse = some st →
        assocGet st.cache k = Option.none → st.provider = some p →
        p.get k st.env = some u → u.scope = st.scope →
        (∀ v t1 e1, inject t rpath k e = .ok (v, t1, e1) →
            ∃ bf1, stateAt t1 rpath.reverse =
              some { st with cache := assocSet st.cache k bf1 })) ∧
    (∀ t st k e p u, stateAt t [] = some st →
        assocGet st.cache k = Option.none → st.provider = some p →
        p.get k st.env = some u → ¬u.scope = st.scope →
        inject t [] k e = .error (.outOfScope k st.scope u.scope)) := by
  refine ⟨?_, ?_, ?_⟩
  · intro t i r st k e p u hst hmiss hp hu hsc
    constructor
    · rw [inject]
      exact injectCore_delegate t _ k e st p u _ hst hmiss hp hu hsc
    · intro v t1 e1 hok
      rw [inject_stateAt_longer t r k e v t1 e1 _ hok (by simp)]
      exact hst
  · intro t rpath st k e p u hst hmiss hp hu hsc v t1 e1 hok
    have hcore : injectCore t rpath.reverse k e
        (match rpath with
         | [] => Option.none
         | _ :: pr => some (inject t pr k e)) = .ok (v, t1, e1) := by
      cases rpath with
      | nil => rw [inject] at hok; exact hok
      | cons i r => rw [inject] at hok; exact hok
    obtain ⟨bf1, ht⟩ := injectCore_match_scope t rpath.reverse k e _ st p u
      hst hmiss hp hu hsc v t1 e1 hcore
    refine ⟨bf1, ?_⟩
    rw [ht, stateAt_modifyState_self, hst]
    rfl
  · intro t st k e p u hst hmiss hp hu hsc
    rw [inject]
    simp only [injectCore, List.reverse_nil, hst, hmiss, hp, hu, if_neg hsc]

/-- Concrete fixture: key `"k"` registered only for scope `"sc1"`. -/
def exProviderSc : Provider :=
  ⟨[(PyVal.vstr "k",
     [(PyVal.none,
       ⟨BFKind.function, PyVal.none, PyVal.vstr "sc1", PyVal.none, 1⟩)])]⟩

/-- A root injector over `exProviderSc` with a child scoped `"app"` (whose
scope does not match the factory's `"sc1"`), used to exercise delegation. -/
def exProviderDef : Provider :=
  ⟨[(PyVal.vstr "d",
     [(PyVal.none, ⟨BFKind.function, PyVal.none, PyVal.none, PyVal.none, 2⟩)])]⟩

/-- Root injector over `exProviderDef` with one child of scope `"s"`. -/
def exTreeWithChild : ITree :=
  ITree.node ⟨some exProviderDef, PyVal.none, PyVal.none, []⟩
    [ITree.node ⟨some exProviderDef, PyVal.none, PyVal.vstr "s", []⟩ []]

/-- Witness for C4 at concrete inputs: injecting the default-scope key `"d"`
from the `"s"`-scoped child delegates to the root (the results of the two
calls coincide and the child's own state stays empty), and injecting the
`"sc1"`-only key `"k"` from a root injector with no parent raises the
out-of-scope error carrying key, own scope and required scope. -/
theorem C4_witness :
    (inject exTreeWithChild [0] (PyVal.vstr "d") exEff =
        inject exTreeWithChild [] (PyVal.vstr "d") exEff) ∧
    (inject (mkRoot exProviderSc PyVal.none) [] (PyVal.vstr "k") exEff =
        .error (.outOfScope (PyVal.vstr "k") PyVal.none (PyVal.vstr "sc1"))) := by
  constructor
  · exact (C4_thm.1 exTreeWithChild 0 [] _ (PyVal.vstr "d") exEff
      exProviderDef _ rfl rfl rfl rfl (by decide)).1
  · exact C4_thm.2.2 (mkRoot exProviderSc PyVal.none) _ (PyVal.vstr "k")
      exEff exProviderSc _ rfl rfl rfl rfl (by decide)

/-- Concrete fixture: key `"g"` registered with a generator-based factory
(user function 3: setup yields an object, teardown runs after the yield). -/
def exProviderGen : Provider :=
  ⟨[(PyVal.vstr "g",
     [(PyVal.none, ⟨BFKind.generator, PyVal.none, PyVal.none, PyVal.none, 3⟩)])]⟩

/-- The generator-backed injector after one `inject("g")`. -/
def exGenStep : Except InjErr (PyVal × ITree × Eff) :=
  inject (mkRoot exProviderGen PyVal.none) [] (PyVal.vstr "g") exEff

/-- The injector and effects after closing it. -/
def exGenClosed : ITree × Eff :=
  fullCloseF 1 (injTree exGenStep (mkRoot exProviderGen PyVal.none))
    (injEffD exGenStep exEff)

/-- C5: closing is idempotent.  (1) For every injector, a second completed
`close()` (awaiting its pending result when there is one) changes nothing:
the tree and the effect log (hence any teardown trace) are unchanged.
(2) For every bound factory that has an assigned instance and whose wrapped
generator is past its creation point (the state of every factory the
injector has used), a second `close()` is a no-op.  (3) Concretely, for a
generator-based factory injected once, after close the trace is exactly
`[setup, teardown]` — the post-yield teardown ran once — and a further close
adds nothing. -/
theorem C5_thm :
    (∀ f1 f2 t e,
        fullCloseF (f2 + 1) (fullCloseF (f1 + 1) t e).1
            (fullCloseF (f1 + 1) t e).2 = fullCloseF (f1 + 1) t e) ∧
    (∀ b e, b.inst ≠ PyVal.undef → b.gen ≠ GenState.created →
        BF.close (BF.close b e).1 (BF.close b e).2 = BF.close b e) ∧
    (exGenClosed.2.log = [Event.construct 3 0, Event.teardown 3] ∧
     fullCloseF 1 exGenClosed.1 exGenClosed.2 = exGenClosed) := by
  refine ⟨?_, ?_, rfl, rfl⟩
  · intro f1 f2 t e
    exact fullCloseF_of_closed f2 (fullCloseF (f1 + 1) t e).1
      (fullCloseF (f1 + 1) t e).2 (isClosed_fullCloseF f1 t e)
  · intro b e h1 h2
    exact close_close_eq b e h1 h2

/-- Witness for C5 at concrete inputs: a second close of the already closed
generator-backed injector returns it unchanged, and a second factory-level
close of the closed bound factory is a no-op. -/
theorem C5_witness :
    fullCloseF 1 exGenClosed.1 exGenClosed.2 = exGenClosed ∧
    BF.close (BF.close ⟨BFKind.generator, 3, PyVal.obj 0, GenState.suspended⟩
        exEff).1
      (BF.close ⟨BFKind.generator, 3, PyVal.obj 0, GenState.suspended⟩
        exEff).2 =
      BF.close ⟨BFKind.generator, 3, PyVal.obj 0, GenState.suspended⟩ exEff := by
  constructor
  · have h := C5_thm.1 0 0 (injTree exGenStep (mkRoot exProviderGen PyVal.none))
      (injEffD exGenStep exEff)
    exact h
  · exact C5_thm.2.1 ⟨BFKind.generator, 3, PyVal.obj 0, GenState.suspended⟩
      exEff (by decide) (by decide)

/-- C6: for an injector that is not yet closed, `close()` returns a pending
(awaitable) result exactly when the provider has at least one registered
factory that reports itself awaitable — a property of the registry alone,
independent of whether any factory was used — and when no registered factory
is awaitable, `close()` returns nothing (no coroutine) and the injector
reports `is_closed()` immediately afterwards. -/
theorem C6_thm : ∀ fuel st cs e p, st.provider = some p →
    ((closeNodeF (fuel + 1) (ITree.node st cs) e).2.2 = p.hasAwaitables) ∧
    (p.hasAwaitables = true ↔
       ∃ k env u, (k, env, u) ∈ p.entries ∧ u.kind.awaitable = true) ∧
    (p.hasAwaitables = false →
       isClosed (closeNodeF (fuel + 1) (ITree.node st cs) e).1 = true) := by
  intro fuel st cs e p hp
  rcases hcc : closeChildrenWith (closeNodeF fuel) cs e with ⟨cs1, e1⟩
  rcases hcs : closeCacheSync st.cache e1 with ⟨cache1, e2⟩
  refine ⟨?_, ?_, ?_⟩
  · by_cases ha : p.hasAwaitables <;>
      simp [closeNodeF, closeNodeStep, hp, hcc, hcs, ha]
  · rw [Provider.hasAwaitables, List.any_eq_true]
    constructor
    · rintro ⟨⟨k, env, u⟩, hm, hawait⟩
      exact ⟨k, env, u, hm, hawait⟩
    · rintro ⟨k, env, u, hm, hawait⟩
      exact ⟨(k, env, u), hm, hawait⟩
  · intro ha
    simp [closeNodeF, closeNodeStep, hp, hcc, hcs, ha, isClosed, ITree.st]

/-- Concrete fixture: key `"c"` registered with a coroutine-based factory. -/
def exProviderCoro : Provider :=
  ⟨[(PyVal.vstr "c",
     [(PyVal.none, ⟨BFKind.coroutine, PyVal.none, PyVal.none, PyVal.none, 9⟩)])]⟩

/-- Witness for C6 at concrete inputs: over the coroutine provider (never
used!) `close()` returns a coroutine, and over the plain function provider
it completes synchronously and the injector is closed immediately. -/
theorem C6_witness :
    (closeNodeF 1 (mkRoot exProviderCoro PyVal.none) exEff).2.2 = true ∧
    (closeNodeF 1 exRootFun exEff).2.2 = false ∧
    isClosed (closeNodeF 1 exRootFun exEff).1 = true := by
  refine ⟨?_, ?_, ?_⟩
  · exact (C6_thm 0 ⟨some exProviderCoro, PyVal.none, PyVal.none, []⟩ []
      exEff exProviderCoro rfl).1.trans rfl
  · exact (C6_thm 0 ⟨some exProviderFun, PyVal.none, PyVal.none, []⟩ []
      exEff exProviderFun rfl).1.trans rfl
  · exact (C6_thm 0 ⟨some exProviderFun, PyVal.none, PyVal.none, []⟩ []
      exEff exProviderFun rfl).2.2 rfl

/-- C7: registering a second factory for an already-occupied `(key, env)`
pair — via `register_func`, `register_instance`, the `provides` decorator,
or by attach-merging another provider holding a colliding pair — raises
`DoubleRegistrationError` carrying that key and environment; the direct
registrations return the error without modifying anything, and after a
failed merge the already-registered entry for the colliding pair is
unchanged. -/
theorem C7_thm :
    (∀ (p : Provider) (key env : PyVal) (kind : BFKind) (fid : Nat)
        (scope : PyVal), (p.rawGet key env).isSome = true →
        p.registerFunc key kind fid scope env =
          .error (.doubleRegistration key env)) ∧
    (∀ (p : Provider) (key env v scope : PyVal),
        (p.rawGet key env).isSome = true →
        p.registerInstance key v scope env =
          .error (.doubleRegistration key env)) ∧
    (∀ (p : Provider) (key env : PyVal) (kind : BFKind) (fid : Nat)
        (scope : PyVal), (p.rawGet key env).isSome = true →
        p.provides key kind fid scope env =
          .error (.doubleRegistration key env)) ∧
    (∀ (p q p1 : Provider) (k env : PyVal), q.PairsNodup →
        p.attach q = (p1, some (.doubleRegistration k env)) →
        p1.rawGet k env = p.rawGet k env ∧
          (p.rawGet k env).isSome = true) := by
  refine ⟨?_, ?_, ?_, ?_⟩
  · intro p key env kind fid scope h
    simp [Provider.registerFunc, h]
  · intro p key env v scope h
    simp [Provider.registerInstance, h]
  · intro p key env kind fid scope h
    simp [Provider.provides, Provider.registerFunc, h]
  · intro p q p1 k env hnd hat
    exact attachPairs_collision q.entries hnd p p1 k env hat

/-- Witness for C7 at concrete inputs: re-registering key `"a"` in the
default environment fails with the double-registration error, and merging
the provider into itself fails on that same pair, leaving the entry for it
unchanged. -/
theorem C7_witness :
    exProviderFun.registerFunc (PyVal.vstr "a") BFKind.function 9 PyVal.none
        PyVal.none =
      .error (.doubleRegistration (PyVal.vstr "a") PyVal.none) ∧
    exProviderFun.registerInstance (PyVal.vstr "a") (PyVal.vint 5) PyVal.none
        PyVal.none =
      .error (.doubleRegistration (PyVal.vstr "a") PyVal.none) ∧
    (exProviderFun.attach exProviderFun).1.rawGet (PyVal.vstr "a") PyVal.none =
      exProviderFun.rawGet (PyVal.vstr "a") PyVal.none := by
  refine ⟨?_, ?_, ?_⟩
  · exact C7_thm.1 exProviderFun (PyVal.vstr "a") PyVal.none BFKind.function
      9 PyVal.none rfl
  · exact C7_thm.2.1 exProviderFun (PyVal.vstr "a") PyVal.none (PyVal.vint 5)
      PyVal.none rfl
  · exact (C7_thm.2.2.2 exProviderFun exProviderFun
      (exProviderFun.attach exProviderFun).1 (PyVal.vstr "a") PyVal.none
      (by unfold Provider.PairsNodup; decide) rfl).1

theorem list_map_toFinset {α β : Type} [DecidableEq α] [DecidableEq β]
    (f : α → β) (l : List α) :
    (l.map f).toFinset = l.toFinset.image f := by
  induction l with
  | nil => simp
  | cons a tl ih => simp [ih]

theorem stateAt_appendChild (p : List Nat) (t c n : ITree)
    (h : getNode t p = some n) :
    stateAt (appendChild t p c) (p ++ [n.children.length]) = some c.st := by
  induction p generalizing t with
  | nil =>
      obtain ⟨s, cs⟩ := t
      simp only [getNode, Option.some.injEq] at h
      subst h
      simp [appendChild, stateAt, getNode, ITree.children,
        List.getElem?_concat_length]
  | cons i p1 ih =>
      obtain ⟨s, cs⟩ := t
      cases hc : cs[i]? with
      | none => simp [getNode, hc] at h
      | some ci =>
          have hl : i < cs.length := (List.getElem?_eq_some.mp hc).1
          simp only [getNode, hc] at h
          simp only [appendChild, hc, List.cons_append, stateAt, getNode,
            List.getElem?_set_self hl]
          exact ih ci h

/-- C8: `Injector.scoped(scope, env)` validates the explicit environment
against this injector's own (inherited) environment: when both are not
`None` and differ, a `ValueError` is raised immediately by the `scoped`
call itself; in every other case the call succeeds and the child injector's
environment is `env or self._env` (so a truthy explicit `env`, which in the
non-conflicting cases equals the inherited one or is the first environment
in the chain, and otherwise the inherited environment). -/
theorem C8_thm : ∀ (t : ITree) (rpath : List Nat) (n : ITree)
    (scope env : PyVal), getNode t rpath.reverse = some n →
    ((env ≠ PyVal.none ∧ n.st.env ≠ PyVal.none ∧ n.st.env ≠ env) →
        scopedInjector t rpath scope env =
          .error (.valueErrorScopedEnv n.st.env env)) ∧
    (¬(env ≠ PyVal.none ∧ n.st.env ≠ PyVal.none ∧ n.st.env ≠ env) →
        ∃ t1, scopedInjector t rpath scope env =
            .ok (t1, n.children.length :: rpath) ∧
          stateAt t1 (n.children.length :: rpath).reverse =
            some ⟨n.st.provider,
                  if env.truthy then env else n.st.env, scope, []⟩) := by
  intro t rpath n scope env hn
  constructor
  · intro hcond
    simp only [scopedInjector, hn, if_pos hcond]
  · intro hcond
    refine ⟨appendChild t rpath.reverse
      (ITree.node ⟨n.st.provider,
        if env.truthy then env else n.st.env, scope, []⟩ []), ?_, ?_⟩
    · simp only [scopedInjector, hn, if_neg hcond]
    · rw [List.reverse_cons]
      exact stateAt_appendChild rpath.reverse t _ n hn

/-- Witness for C8 at concrete inputs: over a root with environment
`"testing"`, requesting a child with environment `"prod"` raises the
configuration error, while requesting `"testing"` again succeeds and the
child inherits environment `"testing"`. -/
theorem C8_witness :
    scopedInjector (mkRoot exProviderFun (PyVal.vstr "testing")) []
        (PyVal.vstr "app") (PyVal.vstr "prod") =
      .error (.valueErrorScopedEnv (PyVal.vstr "testing")
        (PyVal.vstr "prod")) ∧
    (∃ t1, scopedInjector (mkRoot exProviderFun (PyVal.vstr "testing")) []
          (PyVal.vstr "app") (PyVal.vstr "testing") = .ok (t1, [0]) ∧
        stateAt t1 [0] = some ⟨some exProviderFun, PyVal.vstr "testing",
          PyVal.vstr "app", []⟩) := by
  constructor
  · exact (C8_thm (mkRoot exProviderFun (PyVal.vstr "testing")) []
      (mkRoot exProviderFun (PyVal.vstr "testing")) (PyVal.vstr "app")
      (PyVal.vstr "prod") rfl).1 (by decide)
  · have h := (C8_thm (mkRoot exProviderFun (PyVal.vstr "testing")) []
      (mkRoot exProviderFun (PyVal.vstr "testing")) (PyVal.vstr "app")
      (PyVal.vstr "testing") rfl).2 (by decide)
    simpa using h

/-- C10: over an injector whose own environment is `None`, `scoped(scope,
env=z)` with a non-`None` falsy `z` (such as `0`, `""`, or `False`) raises
nothing and returns a child whose environment is `None`, not `z`: the
`env or self._env` expression in `Injector.scoped` drops the falsy value
silently, so no later lookup can happen under `z`. -/
theorem C10_thm : ∀ (t : ITree) (rpath : List Nat) (n : ITree)
    (scope z : PyVal), getNode t rpath.reverse = some n →
    n.st.env = PyVal.none → z ≠ PyVal.none → z.truthy = false →
    ∃ t1, scopedInjector t rpath scope z =
        .ok (t1, n.children.length :: rpath) ∧
      stateAt t1 (n.children.length :: rpath).reverse =
        some ⟨n.st.provider, PyVal.none, scope, []⟩ := by
  intro t rpath n scope z hn henv hz htruthy
  have hcond : ¬(z ≠ PyVal.none ∧ n.st.env ≠ PyVal.none ∧ n.st.env ≠ z) := by
    intro hc
    exact hc.2.1 henv
  refine ⟨appendChild t rpath.reverse
    (ITree.node ⟨n.st.provider,
      if z.truthy then z else n.st.env, scope, []⟩ []), ?_, ?_⟩
  · simp only [scopedInjector, hn, if_neg hcond]
  · rw [List.reverse_cons]
    have h := stateAt_appendChild rpath.reverse t
      (ITree.node ⟨n.st.provider,
        if z.truthy then z else n.st.env, scope, []⟩ []) n hn
    rw [h]
    simp [ITree.st, htruthy]
    exact henv

/-- Witness for C10 at concrete inputs: `scoped("app", env=0)` on a root
with no environment succeeds and the child environment is `None`. -/
theorem C10_witness :
    ∃ t1, scopedInjector exRootFun [] (PyVal.vstr "app") (PyVal.vint 0) =
        .ok (t1, [0]) ∧
      stateAt t1 [0] = some ⟨some exProviderFun, PyVal.none,
        PyVal.vstr "app", []⟩ := by
  have h := C10_thm exRootFun [] exRootFun (PyVal.vstr "app") (PyVal.vint 0)
    rfl rfl (by decide) (by decide)
  simpa using h

/-- C9 counterexample: the live `Variant.__eq__` and `Variant.__hash__`
also compare and hash the positional argument tuple `self._args`, so the
claimed criterion (equal base keys and equal named-parameter mappings) does
not characterise equality: `Variant("k", 1, a=1)` and `Variant("k", a=1)`
have the same base key and literally the same named-parameter dict, yet are
unequal, and their hashed frozensets differ (one contains the positional
`1`). -/
theorem C9_counterexample :
    (⟨PyVal.vstr "k", [PyVal.vint 1], [("a", PyVal.vint 1)]⟩ : Variant).key =
      (⟨PyVal.vstr "k", [], [("a", PyVal.vint 1)]⟩ : Variant).key ∧
    (⟨PyVal.vstr "k", [PyVal.vint 1], [("a", PyVal.vint 1)]⟩ :
        Variant).kwargs =
      (⟨PyVal.vstr "k", [], [("a", PyVal.vint 1)]⟩ : Variant).kwargs ∧
    Variant.beq ⟨PyVal.vstr "k", [PyVal.vint 1], [("a", PyVal.vint 1)]⟩
      ⟨PyVal.vstr "k", [], [("a", PyVal.vint 1)]⟩ = false ∧
    Variant.hashSet ⟨PyVal.vstr "k", [PyVal.vint 1], [("a", PyVal.vint 1)]⟩ ≠
      Variant.hashSet ⟨PyVal.vstr "k", [], [("a", PyVal.vint 1)]⟩ := by
  refine ⟨rfl, rfl, rfl, ?_⟩
  decide

/-- C9 (amended): two variants are equal exactly when their base keys are
equal, their positional-argument tuples are equal, and their full
named-parameter mappings are equal — the named-parameter comparison is by
mapping equality, so the construction order of the named parameters is
irrelevant — and any two equal variants have the same hashed frozenset
(hence identical hash values, the Python hash being a function of that
frozenset). -/
theorem C9_amended : ∀ v1 v2 : Variant,
    (v1.kwargs.map Prod.fst).Nodup → (v2.kwargs.map Prod.fst).Nodup →
    ((Variant.beq v1 v2 = true ↔
        (v1.key = v2.key ∧ v1.args = v2.args ∧
         ∀ n, assocGet v1.kwargs n = assocGet v2.kwargs n)) ∧
     (Variant.beq v1 v2 = true → v1.hashSet = v2.hashSet)) := by
  intro v1 v2 h1 h2
  have hbeq : Variant.beq v1 v2 = true ↔
      (v1.key = v2.key ∧ v1.args = v2.args ∧
       ∀ n, assocGet v1.kwargs n = assocGet v2.kwargs n) := by
    rw [Variant.beq, Bool.and_eq_true, Bool.and_eq_true, beq_iff_eq,
      beq_iff_eq, dictBEq_iff _ _ h1 h2, and_assoc]
  refine ⟨hbeq, ?_⟩
  intro hb
  obtain ⟨hkey, hargs, hpt⟩ := hbeq.mp hb
  rw [Variant.hashSet, Variant.hashSet, hkey, hargs]
  have hfin := pairs_toFinset_eq v1.kwargs v2.kwargs h1 h2 hpt
  rw [List.toFinset_append, List.toFinset_append, list_map_toFinset,
    list_map_toFinset, hfin, list_map_toFinset]

/-- Witness for the amended C9 at concrete inputs: variants of key `"k"`
with the same positional argument `7` and the named parameters `a=1, b=2`
supplied in the two different orders are equal and their hashed frozensets
coincide. -/
theorem C9_amended_witness :
    Variant.beq
        ⟨PyVal.vstr "k", [PyVal.vint 7],
         [("a", PyVal.vint 1), ("b", PyVal.vint 2)]⟩
        ⟨PyVal.vstr "k", [PyVal.vint 7],
         [("b", PyVal.vint 2), ("a", PyVal.vint 1)]⟩ = true ∧
    Variant.hashSet
        ⟨PyVal.vstr "k", [PyVal.vint 7],
         [("a", PyVal.vint 1), ("b", PyVal.vint 2)]⟩ =
      Variant.hashSet
        ⟨PyVal.vstr "k", [PyVal.vint 7],
         [("b", PyVal.vint 2), ("a", PyVal.vint 1)]⟩ := by
  constructor
  · decide
  · exact (C9_amended
      ⟨PyVal.vstr "k", [PyVal.vint 7],
       [("a", PyVal.vint 1), ("b", PyVal.vint 2)]⟩
      ⟨PyVal.vstr "k", [PyVal.vint 7],
       [("b", PyVal.vint 2), ("a", PyVal.vint 1)]⟩
      (by decide) (by decide)).2 (by decide)

/-- Witness for the amended C2 at a concrete input: the closed concrete
function factory reports `None` and is returned unchanged. -/
theorem C2_amended_witness :
    BF.getInstance exBFClosed.1 exBFClosed.2 =
      (some PyVal.none, exBFClosed.1, exBFClosed.2) :=
  C2_amended exBF ⟨1, [Event.construct 7 0]⟩
